import Mathlib

/-!
# Pelalytics — verification of the catalog traversal and extraction engine

Shallow embedding of `src/refresh_cache.py` (the scraper core selected by the
spec): the tile date parser, the record field heuristics (difficulty rating
scan), the SQLite upsert `save_class_to_db`, and the traversal loop of
`extract_powerzone_classes` together with `main`'s persistence phase.

Python `datetime` values (date-only granularity is what the scraper compares)
are modelled as `PDate` triples ordered lexicographically; Python strings are
modelled as `String` / `List Char`; machine floats that hold ratings are
modelled as `ℚ` (all rating literals the scraper accepts are short decimal
numerals, exactly representable); fallible operations return `Option`.
-/

/-- A calendar date as compared by the scraper (`datetime` at date granularity). -/
structure PDate where
  year : Nat
  month : Nat
  day : Nat
deriving DecidableEq, Repr

/-- Strict order on dates, as Python compares `datetime` values (lexicographic). -/
def PDate.ltb (a b : PDate) : Bool :=
  if a.year ≠ b.year then decide (a.year < b.year)
  else if a.month ≠ b.month then decide (a.month < b.month)
  else decide (a.day < b.day)

/-- `abs((a.year - b.year) * 12 + (a.month - b.month))` as the scraper computes
month gaps (refresh_cache.py lines 413, 424). -/
def monthsBetween (a b : PDate) : Nat :=
  (((a.year : Int) - (b.year : Int)) * 12 + ((a.month : Int) - (b.month : Int))).natAbs

/-- `max(1, int(months * 27 * 0.8))` (refresh_cache.py lines 415, 426).
For every month count that arises, `int(float(m*27) * 0.8)` equals
`m * 27 * 8 / 10` in exact arithmetic: the float product of an integer with
0.8 never rounds across an integer boundary for these magnitudes. -/
def skipOf (months : Nat) : Nat :=
  max 1 (months * 27 * 8 / 10)

/-- Zero-padded two-digit rendering, as `strftime` pads `%m`/`%d`. -/
def pad2 (n : Nat) : String :=
  if n < 10 then "0" ++ toString n else toString n

/-- `class_date.strftime('%Y-%m-%d')` (refresh_cache.py line 542). -/
def fmtDate (d : PDate) : String :=
  toString d.year ++ "-" ++ pad2 d.month ++ "-" ++ pad2 d.day

/-! ## The persisted record and the store (`save_class_to_db`, lines 157-187) -/

/-- The persisted unit: one row of the `classes` table / one `class_info` dict. -/
structure ClassRecord where
  id : String
  title : String
  instructor : String
  duration_minutes : Option Nat
  difficulty_rating : Option ℚ
  class_type : String
  original_air_time : String
  url : String
deriving DecidableEq, Repr

/-- The `classes` table, as the list of its rows.  `id` is the primary key. -/
def keysNodup (db : List ClassRecord) : Prop :=
  (db.map ClassRecord.id).Nodup

/-- `save_class_to_db` (lines 157-187): `INSERT OR REPLACE` keyed on the
primary key `id` — SQLite deletes any row that would violate the `id`
uniqueness constraint and inserts the new row. -/
def saveClassToDb (db : List ClassRecord) (cls : ClassRecord) : List ClassRecord :=
  db.filter (fun r => !(r.id == cls.id)) ++ [cls]

/-! ## Character-level string utilities (Python `str` methods used by the core)

These model the exact Python operations on the character sequence:
`str.split(sep)`, `str.strip()`, `str.split()` (whitespace words). -/

/-- `str.split(sep)` for a one-character separator: keeps empty pieces,
always returns at least one piece. -/
def splitOnChar (sep : Char) : List Char → List (List Char)
  | [] => [[]]
  | c :: cs =>
    let r := splitOnChar sep cs
    if c = sep then [] :: r
    else
      match r with
      | [] => [[c]]
      | p :: ps => (c :: p) :: ps

/-- `str.strip()`: drop leading and trailing whitespace. -/
def pyStrip (l : List Char) : List Char :=
  ((l.dropWhile Char.isWhitespace).reverse.dropWhile Char.isWhitespace).reverse

/-- Accumulator worker for `str.split()` with no argument. -/
def wordsAux : List Char → List Char → List (List Char)
  | [], acc => if acc.isEmpty then [] else [acc.reverse]
  | c :: cs, acc =>
    if c.isWhitespace then
      if acc.isEmpty then wordsAux cs []
      else acc.reverse :: wordsAux cs []
    else wordsAux cs (c :: acc)

/-- `str.split()` with no argument: whitespace-separated words, empties dropped. -/
def pyWords (l : List Char) : List (List Char) :=
  wordsAux l []

/-! ## Numeric token parsing (the `strptime` fields and `float`) -/

def digitVal (c : Char) : Nat := c.toNat - 48

def allDigits (l : List Char) : Bool := l.all Char.isDigit

def digitsToNat (l : List Char) : Nat :=
  l.foldl (fun a c => a * 10 + digitVal c) 0

/-- `%m` of `strptime`: regex `1[0-2]|0[1-9]|[1-9]` — one or two digits, value 1-12. -/
def parseMonthTok (l : List Char) : Option Nat :=
  if allDigits l ∧ (l.length = 1 ∨ l.length = 2) then
    let v := digitsToNat l
    if 1 ≤ v ∧ v ≤ 12 then some v else none
  else none

/-- `%d` of `strptime`: regex `3[01]|[12]\d|0[1-9]|[1-9]` — one or two digits, value 1-31. -/
def parseDayTok (l : List Char) : Option Nat :=
  if allDigits l ∧ (l.length = 1 ∨ l.length = 2) then
    let v := digitsToNat l
    if 1 ≤ v ∧ v ≤ 31 then some v else none
  else none

/-- `%y` of `strptime`: regex `\d\d` — exactly two digits. -/
def parseYearTok (l : List Char) : Option Nat :=
  if allDigits l ∧ l.length = 2 then some (digitsToNat l) else none

/-- The two-digit-year pivot applied by CPython `_strptime`:
`if year <= 68: year += 2000 else: year += 1900`. -/
def pivotYear (y2 : Nat) : Nat :=
  if y2 ≤ 68 then 2000 + y2 else 1900 + y2

def isLeapYear (y : Nat) : Bool :=
  decide ((y % 4 = 0 ∧ y % 100 ≠ 0) ∨ y % 400 = 0)

def daysInMonth (y m : Nat) : Nat :=
  if m = 2 then (if isLeapYear y then 29 else 28)
  else if m = 4 ∨ m = 6 ∨ m = 9 ∨ m = 11 then 30
  else 31

/-- `datetime.strptime(tok, '%m/%d/%y')` (refresh_cache.py line 405): month,
day and two-digit year separated by slashes, full match required, day
validated against the month, and the two-digit year pivoted (00-68 become
20xx, 69-99 become 19xx). -/
def parseMDY (l : List Char) : Option PDate :=
  match splitOnChar '/' l with
  | [ms, ds, ys] =>
    match parseMonthTok ms, parseDayTok ds, parseYearTok ys with
    | some m, some d, some y2 =>
      let y := pivotYear y2
      if d ≤ daysInMonth y m then some ⟨y, m, d⟩ else none
    | _, _, _ => none
  | _ => none

/-- The Tile Date Parser (refresh_cache.py lines 398-405):
`date_text.split('@')[0].strip().split()[-1]` fed to
`strptime('%m/%d/%y')`.  Any failure (no last token, malformed date) is the
`DateParseError` condition, modelled as `none`; the caller catches it and
processes the entry dateless. -/
def parseTileDate (s : String) : Option PDate :=
  match (pyWords (pyStrip ((splitOnChar '@' s.data).headD []))).getLast? with
  | some tok => parseMDY tok
  | none => none

/-- Digits of `n ≤ 99` zero-padded to width two, as the tile labels render
their date components (`"Tue 11/25/25 @ 1:00 PM"`). -/
def render2 (n : Nat) : List Char :=
  [Char.ofNat (48 + n / 10), Char.ofNat (48 + n % 10)]

/-- The `MM/DD/YY` token of a tile label. -/
def renderDateTok (m d y2 : Nat) : List Char :=
  render2 m ++ '/' :: (render2 d ++ '/' :: render2 y2)

/-- A well-formed tile label `"<weekday> MM/DD/YY @ <time>"`. -/
def mkTileLabel (wd : List Char) (m d y2 : Nat) (time : List Char) : String :=
  String.mk (wd ++ ' ' :: (renderDateTok m d y2 ++ ' ' :: '@' :: ' ' :: time))

/-! ## The rating scan (`wait_for_modal_and_get`, lines 223-238) -/

/-- Digits of a decimal literal as a pair `(n, k)` denoting the value
`n / 10^k`: the integer and fractional digit groups around an optional
single `'.'`, at least one digit in total. -/
def pyFloatParts (l : List Char) : Option (Nat × Nat) :=
  match splitOnChar '.' l with
  | [a] => if allDigits a ∧ a ≠ [] then some (digitsToNat a, 0) else none
  | [a, b] =>
    if allDigits a ∧ allDigits b ∧ (a ≠ [] ∨ b ≠ []) then
      some (digitsToNat a * 10 ^ b.length + digitsToNat b, b.length)
    else none
  | _ => none

/-- The rational `(-1)^neg * n / 10^k * 10^z` built with `mkRat` only. -/
def ratOfParts (neg : Bool) (n k : Nat) (z : Int) : ℚ :=
  if 0 ≤ z - (k : Int) then
    if neg then -(mkRat ((n * 10 ^ (z - (k : Int)).toNat : Nat) : Int) 1)
    else mkRat ((n * 10 ^ (z - (k : Int)).toNat : Nat) : Int) 1
  else
    if neg then -(mkRat ((n : Nat) : Int) (10 ^ (-(z - (k : Int))).toNat))
    else mkRat ((n : Nat) : Int) (10 ^ (-(z - (k : Int))).toNat)

/-- Python `float(t)` on the text fragments the scan feeds it: an optional
sign, decimal digits with at most one `'.'`, and an optional decimal
exponent.  (Python also accepts `inf`/`nan` and `_` digit separators; such
fragments are either rejected by the scan's guards or fall outside `[0,10]`,
so they never change which fragment the scan selects.) -/
def pyFloat (l : List Char) : Option ℚ :=
  match (match l.map (fun c => if c = 'E' then 'e' else c) with
         | '+' :: r => (false, r)
         | '-' :: r => (true, r)
         | r => (false, r)) with
  | (neg, body) =>
    match splitOnChar 'e' body with
    | [m] => (pyFloatParts m).map (fun p => ratOfParts neg p.1 p.2 0)
    | [m, e] =>
      match pyFloatParts m with
      | none => none
      | some p =>
        match e with
        | '+' :: ed =>
          if allDigits ed ∧ ed ≠ [] then some (ratOfParts neg p.1 p.2 (digitsToNat ed)) else none
        | '-' :: ed =>
          if allDigits ed ∧ ed ≠ [] then some (ratOfParts neg p.1 p.2 (-(digitsToNat ed : Int))) else none
        | ed =>
          if allDigits ed ∧ ed ≠ [] then some (ratOfParts neg p.1 p.2 (digitsToNat ed)) else none
    | _ => none

/-- One candidate fragment of the rating scan (lines 228-234): strip, require
non-empty with a `'.'` and no `'+'`, parse as float, require `0 ≤ v ≤ 10`. -/
def ratingCandidate (t : String) : Option ℚ :=
  if !(pyStrip t.data).isEmpty ∧ (pyStrip t.data).contains '.' ∧ !(pyStrip t.data).contains '+' then
    match pyFloat (pyStrip t.data) with
    | some v => if 0 ≤ v ∧ v ≤ 10 then some v else none
    | none => none
  else none

/-- The rating scan (lines 226-236): walk the visible text fragments in
order, return the first one that passes `ratingCandidate`, else `none`. -/
def extractRating : List String → Option ℚ
  | [] => none
  | t :: rest =>
    match ratingCandidate t with
    | some v => some v
    | none => extractRating rest

/-! ## The traversal engine (`extract_powerzone_classes`, lines 258-616)

The host page is abstracted as a finite catalog of tiles (the fake-host
capability interface of the spec): `catalog[i]` is the tile the loop sees at
offset `i`; lazy scrolling is absorbed into the catalog — an offset beyond
the end is the "no more tiles load" condition (lines 374-390).  Each tile
carries the fields the modal extraction would yield for it, and an injected
`outcome` saying whether opening/extracting it raises a stale-element error
(counted, lines 579-597), another exception (logged, line 599), or succeeds. -/

inductive TileOutcome where
  | ok
  | stale
  | otherError
deriving DecidableEq, Repr

/-- One catalog entry together with what its detail view yields. -/
structure Tile where
  id : String
  title : String
  instructor : String
  durationMinutes : Option Nat
  difficultyRating : Option ℚ
  url : String
  date : Option PDate
  outcome : TileOutcome
deriving DecidableEq, Repr

/-- The traversal configuration (the arguments of `extract_powerzone_classes`). -/
structure TraversalConfig where
  maxClasses : Nat
  startDate : Option PDate
  endDate : Option PDate
  oldestFirst : Bool
deriving DecidableEq, Repr

/-- The loop's mutable locals (lines 323-330, 363). -/
structure TraversalState where
  i : Nat
  classes : List ClassRecord
  processedIds : List String
  classesOutsideRange : Nat
  consecutiveSkips : Nat
  foundRangeStart : Bool
  skipIncrement : Nat
  staleElementErrors : Nat
deriving DecidableEq, Repr

/-- The decision one loop iteration takes (the spec's Window Tracker /
Driver decisions, made observable). -/
inductive Decision where
  | ffSkip (amount : Nat)
  | overshootBacktrack
  | enterBacktrack
  | countedSkip
  | outOfRangeStep
  | processed (r : ClassRecord)
  | duplicateSkip (id : String)
  | staleFailure
  | otherFailure
  | stopMaxReached
  | stopEndOfCatalog
  | stopAfterEnd
  | stopSkipThreshold
  | stopStaleAbort
deriving DecidableEq, Repr

/-- One iteration either continues with a new state or leaves the loop. -/
inductive StepResult where
  | halt (d : Decision) (s : TraversalState)
  | next (d : Decision) (s : TraversalState)
deriving DecidableEq, Repr

/-- `start_date and class_date < start_date` (lines 443, 464). -/
def beforeStartB (sd : Option PDate) (d : PDate) : Bool :=
  match sd with
  | some s0 => PDate.ltb d s0
  | none => false

/-- `end_date and class_date > end_date` (lines 445, 459). -/
def afterEndB (ed : Option PDate) (d : PDate) : Bool :=
  match ed with
  | some e0 => PDate.ltb e0 d
  | none => false

/-- Remaining month gap during oldest-first fast-forward (line 413). -/
def monthsToStart (sd : Option PDate) (d : PDate) : Nat :=
  match sd with
  | some s0 => monthsBetween s0 d
  | none => 0

/-- Remaining month gap during newest-first fast-forward (line 424). -/
def monthsFromEnd (ed : Option PDate) (d : PDate) : Nat :=
  match ed with
  | some e0 => monthsBetween d e0
  | none => 0

/-- The `class_info` dict built at lines 544-553 (title falls back to the
tile's own title when the modal title is empty; both live in `Tile.title`
here). -/
def mkRecord (t : Tile) (classDate : Option PDate) : ClassRecord :=
  { id := t.id
    title := t.title
    instructor := t.instructor
    duration_minutes := t.durationMinutes
    difficulty_rating := t.difficultyRating
    class_type := "Power Zone"
    original_air_time := match classDate with
      | some d => fmtDate d
      | none => ""
    url := t.url }

/-- The pre-loop skip estimate (lines 332-361).  It reads the wall clock
(`now`), and every in-loop use of `skip_increment` recomputes the value
first (lines 410-431), so this initial estimate never influences a
traversal decision; the run theorems therefore quantify over the initial
value.  (With `oldest_first`, no `startDate` and an `endDate` the source
crashes on `None.year` before the loop; that configuration is given the
default 1 here.) -/
def initialSkip (now : PDate) (cfg : TraversalConfig) : Nat :=
  if cfg.startDate.isSome ∨ cfg.endDate.isSome then
    if cfg.oldestFirst then
      match cfg.startDate with
      | some s0 => skipOf ((((s0.year : Int) - 2019) * 12 + (s0.month : Int)).natAbs)
      | none => 1
    else
      match cfg.endDate with
      | some e0 => skipOf (monthsBetween now e0)
      | none =>
        match cfg.startDate with
        | some s0 => skipOf (monthsBetween now s0)
        | none => 1
  else 1

/-- The extraction/processing phase of one iteration (lines 487-614): open
the tile, extract via the modal (a stale-element failure is counted and
aborts the run at the fixed threshold 5, lines 579-597, preserving
`classes`; any other failure just logs and moves on); deduplicate by
identifier (lines 510-516 — note the `continue` there does not advance
`i`); append the record (line 555). -/
def processTile (s : TraversalState) (t : Tile) (classDate : Option PDate) : StepResult :=
  match t.outcome with
  | .stale =>
    if 5 ≤ s.staleElementErrors + 1 then
      .halt .stopStaleAbort { s with staleElementErrors := s.staleElementErrors + 1 }
    else
      .next .staleFailure { s with staleElementErrors := s.staleElementErrors + 1, i := s.i + 1 }
  | .otherError => .next .otherFailure { s with i := s.i + 1 }
  | .ok =>
    if s.processedIds.contains t.id then
      .next (.duplicateSkip t.id) s
    else
      .next (.processed (mkRecord t classDate))
        { s with
          processedIds := t.id :: s.processedIds
          classes := s.classes ++ [mkRecord t classDate]
          i := s.i + 1 }

/-- The window logic for a tile whose date parsed (lines 407-481), in the
source's check order: fast-forward recalculation while the range start has
not been found (with the newest-first overshoot backup `i = max(0, i-20)`),
the enter-the-range backup (lines 449-455), the oldest-first stop past the
end (lines 458-462), the newest-first counted consecutive skip with its
threshold 10 (lines 464-471), the defensive out-of-range step (lines
474-477), and otherwise processing (lines 479-481 reset the flags before
extraction). -/
def datedStep (cfg : TraversalConfig) (s : TraversalState) (t : Tile) (d : PDate) : StepResult :=
  if !s.foundRangeStart && cfg.oldestFirst && beforeStartB cfg.startDate d
      && decide (0 < monthsToStart cfg.startDate d) then
    .next (.ffSkip (skipOf (monthsToStart cfg.startDate d)))
      { s with
        skipIncrement := skipOf (monthsToStart cfg.startDate d)
        classesOutsideRange := s.classesOutsideRange + 1
        i := s.i + skipOf (monthsToStart cfg.startDate d) }
  else if !s.foundRangeStart && !cfg.oldestFirst && afterEndB cfg.endDate d
      && decide (0 < monthsFromEnd cfg.endDate d) then
    .next (.ffSkip (skipOf (monthsFromEnd cfg.endDate d)))
      { s with
        skipIncrement := skipOf (monthsFromEnd cfg.endDate d)
        classesOutsideRange := s.classesOutsideRange + 1
        i := s.i + skipOf (monthsFromEnd cfg.endDate d) }
  else if !s.foundRangeStart && !cfg.oldestFirst && beforeStartB cfg.startDate d then
    .next .overshootBacktrack { s with i := s.i - 20 }
  else if !(beforeStartB cfg.startDate d) && !(afterEndB cfg.endDate d) && !s.foundRangeStart then
    .next .enterBacktrack { s with foundRangeStart := true, i := s.i - 20 }
  else if cfg.oldestFirst && afterEndB cfg.endDate d then
    .halt .stopAfterEnd s
  else if !cfg.oldestFirst && beforeStartB cfg.startDate d then
    if s.foundRangeStart && decide (10 ≤ s.consecutiveSkips + 1) then
      .halt .stopSkipThreshold { s with consecutiveSkips := s.consecutiveSkips + 1 }
    else
      .next .countedSkip { s with consecutiveSkips := s.consecutiveSkips + 1, i := s.i + 1 }
  else if beforeStartB cfg.startDate d || afterEndB cfg.endDate d then
    .next .outOfRangeStep { s with i := s.i + 1 }
  else
    processTile { s with foundRangeStart := true, consecutiveSkips := 0 } t (some d)

/-- Dispatch on the tile's date extraction (lines 397-485): a tile whose
date fails to parse is processed unconditionally (lines 483-485), a dated
tile goes through the window logic. -/
def tileStep (cfg : TraversalConfig) (s : TraversalState) (t : Tile) : StepResult :=
  match t.date with
  | none => processTile s t none
  | some d => datedStep cfg s t d

/-- One iteration of `while i < max_classes` (line 364): the loop guard, the
end-of-catalog check after scrolling finds nothing new (lines 374-390), and
the per-tile logic. -/
def traversalStep (cfg : TraversalConfig) (catalog : List Tile) (s : TraversalState) : StepResult :=
  if cfg.maxClasses ≤ s.i then .halt .stopMaxReached s
  else
    match catalog[s.i]? with
    | none => .halt .stopEndOfCatalog s
    | some t => tileStep cfg s t

/-- The state at loop entry (lines 323-330, 363); `skip0` is the pre-loop
estimate of `initialSkip`. -/
def initState (skip0 : Nat) : TraversalState :=
  { i := 0
    classes := []
    processedIds := []
    classesOutsideRange := 0
    consecutiveSkips := 0
    foundRangeStart := false
    skipIncrement := skip0
    staleElementErrors := 0 }

/-- Run the loop for at most `fuel` iterations: the decisions taken so far,
and — when the loop left within the fuel — the halting decision and final
state.  `none` in the second component means the fuel ran out with the loop
still going. -/
def runAux (cfg : TraversalConfig) (catalog : List Tile) :
    Nat → TraversalState → List Decision × Option (Decision × TraversalState)
  | 0, _ => ([], none)
  | fuel + 1, s =>
    match traversalStep cfg catalog s with
    | .halt d f => ([d], some (d, f))
    | .next d s2 =>
      let r := runAux cfg catalog fuel s2
      (d :: r.1, r.2)

/-- The state after `n` iterations (a halted loop keeps its final state:
stepping a halted state halts again without change). -/
def stepStates (cfg : TraversalConfig) (catalog : List Tile) (s : TraversalState) : Nat → TraversalState
  | 0 => s
  | n + 1 =>
    match traversalStep cfg catalog (stepStates cfg catalog s n) with
    | .halt _ f => f
    | .next _ s2 => s2

/-- The record a decision extracted, if any. -/
def recordOfDecision : Decision → Option ClassRecord
  | .processed r => some r
  | _ => none

/-- The records extracted along a decision trace, in order. -/
def extractedRecords (ds : List Decision) : List ClassRecord :=
  ds.filterMap recordOfDecision

/-! ### `main`'s persistence phase (lines 671-681) -/

/-- An observable event of a whole run: a record coming out of extraction,
or a record being written to the store by `save_class_to_db`. -/
inductive RunEvent where
  | extracted (r : ClassRecord)
  | persisted (r : ClassRecord)
deriving DecidableEq, Repr

/-- The event sequence of one `main` run (lines 671-681): the loop's
extraction events in order, then — only after `extract_powerzone_classes`
has returned its list — one `save_class_to_db` call per returned record
(lines 677-678).  `none` when the loop does not finish within the fuel. -/
def mainEvents (cfg : TraversalConfig) (catalog : List Tile) (skip0 fuel : Nat) :
    Option (List RunEvent) :=
  match runAux cfg catalog fuel (initState skip0) with
  | (ds, some (_, f)) =>
    some ((extractedRecords ds).map RunEvent.extracted ++ f.classes.map RunEvent.persisted)
  | (_, none) => none

/-- Per-record immediate durability: every extraction event is followed
directly by the persistence of that same record. -/
def ImmediatePersist (ev : List RunEvent) : Prop :=
  ∀ k r, ev[k]? = some (RunEvent.extracted r) → ev[k + 1]? = some (RunEvent.persisted r)

/-! ### Decision-trace observations used by the claims -/

def isBacktrackD : Decision → Bool
  | .overshootBacktrack => true
  | .enterBacktrack => true
  | _ => false

def isStopD : Decision → Bool
  | .stopMaxReached => true
  | .stopEndOfCatalog => true
  | .stopAfterEnd => true
  | .stopSkipThreshold => true
  | .stopStaleAbort => true
  | _ => false

/-- A consecutive-skip-counter increment: the counted skip itself, or the
threshold stop — the source increments `consecutive_skips` and then breaks
on the same observation (lines 466-469). -/
def isSkipIncrementD : Decision → Bool
  | .countedSkip => true
  | .stopSkipThreshold => true
  | _ => false

def isFFSkipD : Decision → Bool
  | .ffSkip _ => true
  | _ => false

def isProcessedD : Decision → Bool
  | .processed _ => true
  | _ => false

def isStaleD : Decision → Bool
  | .staleFailure => true
  | .stopStaleAbort => true
  | _ => false

/-- Two stale failures on consecutive iterations somewhere in the trace. -/
def hasAdjacentStale : List Decision → Bool
  | d1 :: d2 :: rest => (isStaleD d1 && isStaleD d2) || hasAdjacentStale (d2 :: rest)
  | _ => false

/-- A numeric code per decision constructor, for stating trace shapes. -/
def decisionKindCode : Decision → Nat
  | .ffSkip _ => 0
  | .overshootBacktrack => 1
  | .enterBacktrack => 2
  | .countedSkip => 3
  | .outOfRangeStep => 4
  | .processed _ => 5
  | .duplicateSkip _ => 6
  | .staleFailure => 7
  | .otherFailure => 8
  | .stopMaxReached => 9
  | .stopEndOfCatalog => 10
  | .stopAfterEnd => 11
  | .stopSkipThreshold => 12
  | .stopStaleAbort => 13

/-- The tiles of a catalog that are dated inside the configured window. -/
def inRangeTileCount (cfg : TraversalConfig) (catalog : List Tile) : Nat :=
  (catalog.filter fun t =>
    match t.date with
    | some d => !(beforeStartB cfg.startDate d) && !(afterEndB cfg.endDate d)
    | none => false).length

/-- A concrete ok tile, for the scenario catalogs. -/
def mkTile (n : Nat) (date : Option PDate) : Tile :=
  { id := "c" ++ toString n
    title := "T"
    instructor := ""
    durationMinutes := none
    difficultyRating := none
    url := "u"
    date := date
    outcome := .ok }

/-- A concrete stale-failing tile. -/
def mkStaleTile (n : Nat) (date : Option PDate) : Tile :=
  { mkTile n date with outcome := .stale }

/-! ### Run invariant and scenario inputs -/

/-- Invariant of a still-running loop state: records and the dedup set grow
in lockstep, processed identifiers are pairwise distinct and belong to tiles
at offsets below `max_classes`, and fewer than 5 stale failures are counted. -/
def RunInv (cfg : TraversalConfig) (catalog : List Tile) (s : TraversalState) : Prop :=
  s.classes.length = s.processedIds.length
  ∧ s.processedIds.Nodup
  ∧ (∀ x ∈ s.processedIds, x ∈ (catalog.take cfg.maxClasses).map Tile.id)
  ∧ s.staleElementErrors < 5

/-- The state of an open-ended (no date bounds) run after `k` straight-line
processed entries. -/
def c3State (catalog : List Tile) (skip0 k : Nat) : TraversalState :=
  { i := k
    classes := (catalog.take k).map (fun t => mkRecord t t.date)
    processedIds := ((catalog.take k).map Tile.id).reverse
    classesOutsideRange := 0
    consecutiveSkips := 0
    foundRangeStart := true
    skipIncrement := skip0
    staleElementErrors := 0 }

/-- C1 scenario: an open-ended two-entry run. -/
def c1Cfg : TraversalConfig := ⟨10, none, none, false⟩

def c1Cat : List Tile := [mkTile 0 none, mkTile 1 none]

/-- C2 scenario: window 2025-03-01..2025-03-31, `max_classes = 10`,
newest-first; the first tile is one month past the window end, the next
twelve are inside the window. -/
def c2Cfg : TraversalConfig := ⟨10, some ⟨2025, 3, 1⟩, some ⟨2025, 3, 31⟩, false⟩

def c2Cat : List Tile :=
  mkTile 0 (some ⟨2025, 4, 20⟩) :: (List.range 12).map (fun n => mkTile (n + 1) (some ⟨2025, 3, 15⟩))

/-- C3 scenario: open-ended run whose first tile has an unparsable date and
whose second tile is dated. -/
def c3Cfg : TraversalConfig := ⟨10, none, none, false⟩

def c3Cat : List Tile := [mkTile 0 none, mkTile 1 (some ⟨2025, 5, 1⟩)]

/-- C3 amended-claim witness scenario: three dated tiles, `max_classes = 2`. -/
def c3wCfg : TraversalConfig := ⟨2, none, none, false⟩

def c3wCat : List Tile :=
  [mkTile 0 (some ⟨2025, 5, 1⟩), mkTile 1 (some ⟨2025, 5, 2⟩), mkTile 2 (some ⟨2025, 5, 3⟩)]

/-- C5 scenario: descending traversal, window 2025-03-01..2025-03-31.
Offset 0 holds 2025-06-01; the fast-forward skip of `skipOf 3 = 64` lands on
offset 64 holding 2025-03-15; the backup of 20 lands on offset 44 holding
2025-03-01; offsets 45-54 hold 2025-02-20 ten times.  Offsets the run never
visits hold 2025-03-10. -/
def c5Cfg : TraversalConfig := ⟨10000, some ⟨2025, 3, 1⟩, some ⟨2025, 3, 31⟩, false⟩

def c5Cat : List Tile := (List.range 65).map fun n =>
  mkTile n (some (
    if n = 0 then ⟨2025, 6, 1⟩
    else if n = 64 then ⟨2025, 3, 15⟩
    else if n = 44 then ⟨2025, 3, 1⟩
    else if 45 ≤ n ∧ n ≤ 54 then ⟨2025, 2, 20⟩
    else ⟨2025, 3, 10⟩))

/-- C6 scenario: newest-first run over window 2025-03-01..2025-03-31 whose
offset-0 tile is dated 2025-01-01, before the window start. -/
def c6Cfg : TraversalConfig := ⟨10, some ⟨2025, 3, 1⟩, some ⟨2025, 3, 31⟩, false⟩

def c6Cat : List Tile := [mkTile 0 (some ⟨2025, 1, 1⟩)]

/-- C7 scenario: stale failures strictly alternating with successful
extractions. -/
def c7Cfg : TraversalConfig := ⟨100, none, none, false⟩

def c7Cat : List Tile :=
  [mkStaleTile 0 none, mkTile 1 none, mkStaleTile 2 none, mkTile 3 none,
   mkStaleTile 4 none, mkTile 5 none, mkStaleTile 6 none, mkTile 7 none,
   mkStaleTile 8 none]

/-! ## Theorems -/

/-- The rating scan is a first-match scan over `ratingCandidate`. -/
theorem extractRating_eq_findSome (l : List String) :
    extractRating l = l.findSome? ratingCandidate := by
  induction l with
  | nil => rfl
  | cons t rest ih =>
    simp only [extractRating, List.findSome?]
    cases ratingCandidate t <;> simp [ih]

/-- A selected candidate's stripped text contains a decimal point. -/
theorem ratingCandidate_has_dot (t : String) (v : ℚ)
    (h : ratingCandidate t = some v) : (pyStrip t.data).contains '.' = true := by
  unfold ratingCandidate at h
  split at h
  · rename_i hg
    exact hg.2.1
  · exact absurd h (by simp)

/-- C9: the rating extraction scans candidate text fragments in order and
returns the first fragment that parses as a decimal number between 0 and 10
inclusive and does not contain a `'+'` character; given a candidate set
containing both `"8.5"` and `"120+"` it selects 8.5, and when no fragment
matches it returns `none` (unknown), never 0. -/
theorem c9_rating_scan :
    (∀ l : List String, extractRating l = l.findSome? ratingCandidate)
    ∧ extractRating ["120+", "8.5"] = some (mkRat 17 2)
    ∧ ratingCandidate "120+" = none
    ∧ extractRating ["Power Zone", "45 min", "120+"] = none := by
  refine ⟨extractRating_eq_findSome, by decide, by decide, by decide⟩

/-- C10: the rating scan only ever selects a fragment containing a `'.'`
character; an integer numeral such as `"9"` is never captured, so a candidate
set whose only in-range numerals are integers yields `none`. -/
theorem c10_decimal_only :
    (∀ (l : List String) (v : ℚ), extractRating l = some v →
      ∃ t, t ∈ l ∧ (pyStrip t.data).contains '.' = true)
    ∧ extractRating ["9", "45 min", "Power Zone"] = none := by
  constructor
  · intro l v h
    induction l with
    | nil => simp [extractRating] at h
    | cons t rest ih =>
      simp only [extractRating] at h
      cases hc : ratingCandidate t with
      | some w =>
        exact ⟨t, List.mem_cons_self t rest, ratingCandidate_has_dot t w hc⟩
      | none =>
        rw [hc] at h
        obtain ⟨u, hu, hdot⟩ := ih h
        exact ⟨u, List.mem_cons_of_mem t hu, hdot⟩
  · decide

/-- Witness for the hypothesis-bearing part of `c10_decimal_only`: applied to
the concrete run that selects `"8.5"`. -/
theorem c10_decimal_only_witness :
    ∃ t, t ∈ ["8.5"] ∧ (pyStrip t.data).contains '.' = true :=
  c10_decimal_only.1 ["8.5"] (mkRat 17 2) (by decide)

/-- C8: `save_class_to_db` is an upsert keyed on `id`: after a save the rows
carrying the saved `id` are exactly the one new row (every field takes the
newly saved value), saving twice is saving once, and pairwise-distinct keys
are preserved (never a duplicate row). -/
theorem c8_upsert (db : List ClassRecord) (c : ClassRecord) (h : keysNodup db) :
    (saveClassToDb db c).filter (fun r => r.id == c.id) = [c]
    ∧ saveClassToDb (saveClassToDb db c) c = saveClassToDb db c
    ∧ keysNodup (saveClassToDb db c) := by
  refine ⟨?_, ?_, ?_⟩
  · unfold saveClassToDb
    rw [List.filter_append, List.filter_filter]
    have h1 : ∀ r : ClassRecord, ((r.id == c.id) && !(r.id == c.id)) = false := by
      intro r; cases hr : (r.id == c.id) <;> simp [hr]
    rw [List.filter_congr (fun r _ => h1 r)]
    simp
  · unfold saveClassToDb
    rw [List.filter_append, List.filter_filter]
    have h1 : ∀ r : ClassRecord, (!(r.id == c.id) && !(r.id == c.id)) = !(r.id == c.id) := by
      intro r; cases hr : (r.id == c.id) <;> simp [hr]
    rw [List.filter_congr (fun r _ => h1 r)]
    simp
  · unfold saveClassToDb keysNodup
    rw [List.map_append, List.nodup_append]
    refine ⟨?_, by simp, ?_⟩
    · exact ((h.sublist (List.Sublist.map ClassRecord.id (List.filter_sublist db))))
    · intro x hx
      simp only [List.mem_map] at hx
      obtain ⟨r, hr, hx⟩ := hx
      have := List.of_mem_filter hr
      simp only [List.map_cons, List.map_nil, List.mem_singleton]
      intro heq
      rw [hx] at this
      rw [heq] at this
      simp at this

/-- Witness for `c8_upsert` at a concrete store and record. -/
theorem c8_upsert_witness :
    keysNodup [] ∧
    ((saveClassToDb [] ⟨"a", "T", "I", some 45, some (mkRat 17 2), "Power Zone", "2025-03-01", "u"⟩).filter
        (fun r => r.id == "a") = [⟨"a", "T", "I", some 45, some (mkRat 17 2), "Power Zone", "2025-03-01", "u"⟩]
      ∧ saveClassToDb (saveClassToDb [] ⟨"a", "T", "I", some 45, some (mkRat 17 2), "Power Zone", "2025-03-01", "u"⟩)
          ⟨"a", "T", "I", some 45, some (mkRat 17 2), "Power Zone", "2025-03-01", "u"⟩
        = saveClassToDb [] ⟨"a", "T", "I", some 45, some (mkRat 17 2), "Power Zone", "2025-03-01", "u"⟩
      ∧ keysNodup (saveClassToDb [] ⟨"a", "T", "I", some 45, some (mkRat 17 2), "Power Zone", "2025-03-01", "u"⟩)) :=
  ⟨by simp [keysNodup], c8_upsert [] ⟨"a", "T", "I", some 45, some (mkRat 17 2), "Power Zone", "2025-03-01", "u"⟩ (by simp [keysNodup])⟩

/-! ### String-splitting lemmas for the Tile Date Parser -/

theorem splitOnChar_eq_single (sep : Char) (a : List Char) (h : sep ∉ a) :
    splitOnChar sep a = [a] := by
  induction a with
  | nil => rfl
  | cons c cs ih =>
    simp only [List.mem_cons, not_or] at h
    simp only [splitOnChar]
    rw [if_neg (fun hc => h.1 hc.symm), ih h.2]

theorem splitOnChar_sep_append (sep : Char) (a b : List Char) (h : sep ∉ a) :
    splitOnChar sep (a ++ sep :: b) = a :: splitOnChar sep b := by
  induction a with
  | nil => simp [splitOnChar]
  | cons c cs ih =>
    simp only [List.mem_cons, not_or] at h
    simp only [List.cons_append, splitOnChar]
    rw [if_neg (fun hc => h.1 hc.symm)]
    simp only [List.append_eq]
    rw [ih h.2]

theorem wordsAux_allWS (t : List Char) (h : ∀ c ∈ t, c.isWhitespace = true) :
    ∀ acc, wordsAux t acc = if acc.isEmpty then [] else [acc.reverse] := by
  induction t with
  | nil => intro acc; rfl
  | cons c cs ih =>
    intro acc
    have hc := h c (List.mem_cons_self c cs)
    have hcs : ∀ x ∈ cs, x.isWhitespace = true :=
      fun x hx => h x (List.mem_cons_of_mem c hx)
    simp only [wordsAux, hc, if_true]
    by_cases ha : acc.isEmpty <;> simp [ha, ih hcs]

theorem wordsAux_ws_suffix (t : List Char) (ht : ∀ c ∈ t, c.isWhitespace = true) :
    ∀ l acc, wordsAux (l ++ t) acc = wordsAux l acc := by
  intro l
  induction l with
  | nil =>
    intro acc
    rw [List.nil_append, wordsAux_allWS t ht acc]
    rfl
  | cons c cs ih =>
    intro acc
    simp only [List.cons_append, wordsAux]
    by_cases hc : c.isWhitespace <;> simp [hc, ih]

theorem pyWords_dropWhile_ws (l : List Char) :
    pyWords (l.dropWhile Char.isWhitespace) = pyWords l := by
  induction l with
  | nil => rfl
  | cons c cs ih =>
    by_cases hc : c.isWhitespace
    · rw [List.dropWhile_cons]
      simp only [hc, if_true]
      rw [ih]
      simp only [pyWords, wordsAux, hc, if_true, List.isEmpty_nil]
    · rw [List.dropWhile_cons]
      simp [hc]

theorem pyWords_pyStrip (l : List Char) : pyWords (pyStrip l) = pyWords l := by
  unfold pyStrip
  have hsplit : l.dropWhile Char.isWhitespace =
      ((l.dropWhile Char.isWhitespace).reverse.dropWhile Char.isWhitespace).reverse
        ++ ((l.dropWhile Char.isWhitespace).reverse.takeWhile Char.isWhitespace).reverse := by
    rw [← List.reverse_append, List.takeWhile_append_dropWhile, List.reverse_reverse]
  have hws : ∀ c ∈ ((l.dropWhile Char.isWhitespace).reverse.takeWhile Char.isWhitespace).reverse,
      c.isWhitespace = true := by
    intro c hcmem
    rw [List.mem_reverse] at hcmem
    exact List.mem_takeWhile_imp hcmem
  calc pyWords (((l.dropWhile Char.isWhitespace).reverse.dropWhile Char.isWhitespace).reverse)
      = pyWords (((l.dropWhile Char.isWhitespace).reverse.dropWhile Char.isWhitespace).reverse
          ++ ((l.dropWhile Char.isWhitespace).reverse.takeWhile Char.isWhitespace).reverse) := by
        unfold pyWords
        rw [wordsAux_ws_suffix _ hws]
    _ = pyWords (l.dropWhile Char.isWhitespace) := by rw [← hsplit]
    _ = pyWords l := pyWords_dropWhile_ws l

theorem wordsAux_nonws_run (u : List Char) (hu : ∀ c ∈ u, c.isWhitespace = false) :
    ∀ rest acc, wordsAux (u ++ rest) acc = wordsAux rest (u.reverse ++ acc) := by
  induction u with
  | nil => intro rest acc; simp
  | cons c cs ih =>
    intro rest acc
    have hc := hu c (List.mem_cons_self c cs)
    simp only [List.cons_append, wordsAux, hc]
    rw [if_neg (by simp [hc])]
    simp only [List.append_eq]
    rw [ih (fun x hx => hu x (List.mem_cons_of_mem c hx)) rest (c :: acc)]
    simp

theorem pyWords_single (w : List Char) (h1 : w ≠ [])
    (h2 : ∀ c ∈ w, c.isWhitespace = false) : pyWords w = [w] := by
  unfold pyWords
  have := wordsAux_nonws_run w h2 [] []
  rw [List.append_nil] at this
  rw [this]
  simp only [wordsAux, List.append_nil]
  rw [if_neg (by simp [h1])]
  simp

theorem pyWords_pair (wd w : List Char) (h1 : wd ≠ [])
    (h2 : ∀ c ∈ wd, c.isWhitespace = false) (h3 : w ≠ [])
    (h4 : ∀ c ∈ w, c.isWhitespace = false) :
    pyWords (wd ++ ' ' :: w) = [wd, w] := by
  unfold pyWords
  rw [wordsAux_nonws_run wd h2 (' ' :: w) []]
  simp only [wordsAux]
  rw [if_pos (by decide)]
  rw [if_neg (by simp [h1])]
  have hw : wordsAux w [] = [w] := pyWords_single w h3 h4
  rw [hw]
  simp

/-! ### Digit rendering facts and the Tile Date Parser theorems -/

theorem render2_facts (n : Nat) (hn : n ≤ 99) :
    allDigits (render2 n) = true ∧ (render2 n).length = 2 ∧ digitsToNat (render2 n) = n
    ∧ (∀ c ∈ render2 n, c.isWhitespace = false ∧ c ≠ '@' ∧ c ≠ '/') := by
  have h1 : n / 10 < 10 := by omega
  have h2 : n % 10 < 10 := by omega
  have key : ∀ k, k < 10 → (Char.ofNat (48 + k)).isDigit = true
      ∧ digitVal (Char.ofNat (48 + k)) = k
      ∧ (Char.ofNat (48 + k)).isWhitespace = false
      ∧ Char.ofNat (48 + k) ≠ '@' ∧ Char.ofNat (48 + k) ≠ '/' := by decide
  obtain ⟨ka, kb, kc, kd, ke⟩ := key _ h1
  obtain ⟨la, lb, lc, ld, le⟩ := key _ h2
  refine ⟨?_, rfl, ?_, ?_⟩
  · simp [allDigits, render2, ka, la]
  · simp [digitsToNat, render2, kb, lb]
    omega
  · intro c hc
    simp only [render2, List.mem_cons, List.not_mem_nil, or_false] at hc
    rcases hc with hc | hc <;> subst hc
    · exact ⟨kc, kd, ke⟩
    · exact ⟨lc, ld, le⟩

theorem daysInMonth_le (y m : Nat) : daysInMonth y m ≤ 31 := by
  unfold daysInMonth
  split
  · split <;> omega
  · split <;> omega

theorem renderDateTok_ne_nil (m d y2 : Nat) : renderDateTok m d y2 ≠ [] := by
  simp [renderDateTok, render2]

theorem renderDateTok_chars (m d y2 : Nat) (hm : m ≤ 99) (hd : d ≤ 99) (hy : y2 ≤ 99) :
    ∀ c ∈ renderDateTok m d y2, c.isWhitespace = false ∧ c ≠ '@' := by
  intro c hc
  unfold renderDateTok at hc
  rw [List.mem_append] at hc
  rcases hc with hc | hc
  · exact ⟨((render2_facts m hm).2.2.2 c hc).1, ((render2_facts m hm).2.2.2 c hc).2.1⟩
  · rw [List.mem_cons] at hc
    rcases hc with hc | hc
    · subst hc; exact ⟨by decide, by decide⟩
    · rw [List.mem_append] at hc
      rcases hc with hc | hc
      · exact ⟨((render2_facts d hd).2.2.2 c hc).1, ((render2_facts d hd).2.2.2 c hc).2.1⟩
      · rw [List.mem_cons] at hc
        rcases hc with hc | hc
        · subst hc; exact ⟨by decide, by decide⟩
        · exact ⟨((render2_facts y2 hy).2.2.2 c hc).1, ((render2_facts y2 hy).2.2.2 c hc).2.1⟩

theorem parseMDY_render (m d y2 : Nat) (hm1 : 1 ≤ m) (hm2 : m ≤ 12)
    (hd1 : 1 ≤ d) (hd2 : d ≤ daysInMonth (pivotYear y2) m) (hy : y2 ≤ 99) :
    parseMDY (renderDateTok m d y2) = some ⟨pivotYear y2, m, d⟩ := by
  have hm99 : m ≤ 99 := by omega
  have hd99 : d ≤ 99 := le_trans hd2 (le_trans (daysInMonth_le _ _) (by omega))
  obtain ⟨ma, mlen, mval, mcs⟩ := render2_facts m hm99
  obtain ⟨da, dlen, dval, dcs⟩ := render2_facts d hd99
  obtain ⟨ya, ylen, yval, ycs⟩ := render2_facts y2 hy
  have hd31 : d ≤ 31 := le_trans hd2 (daysInMonth_le _ _)
  have hsplit : splitOnChar '/' (renderDateTok m d y2)
      = [render2 m, render2 d, render2 y2] := by
    unfold renderDateTok
    rw [splitOnChar_sep_append '/' _ _ (fun hc => absurd rfl (mcs _ hc).2.2)]
    rw [splitOnChar_sep_append '/' _ _ (fun hc => absurd rfl (dcs _ hc).2.2)]
    rw [splitOnChar_eq_single '/' _ (fun hc => absurd rfl (ycs _ hc).2.2)]
  unfold parseMDY
  rw [hsplit]
  simp only [parseMonthTok, parseDayTok, parseYearTok, ma, mlen, dval, da, dlen, ya, ylen,
    mval, yval]
  simp only [true_and, or_true, if_true, and_true]
  rw [if_pos (by omega), if_pos (by omega)]
  simp only []
  rw [if_pos hd2]

/-- C4 counterexample: a valid tile label with two-digit year 99 parses to the
year 1999, not 2000 + 99, refuting the claim's year rule as stated. -/
theorem c4_counterexample :
    parseTileDate "Mon 01/01/99 @ 5:00 PM" = some ⟨1999, 1, 1⟩ ∧ 1999 ≠ 2000 + 99 :=
  ⟨by decide, by decide⟩

/-- C4 (amended): for every well-formed tile label
`"<weekday> MM/DD/YY @ <time>"`, the Tile Date Parser returns the calendar
date with year `2000 + YY` when `YY ≤ 68` and `1900 + YY` when `69 ≤ YY`
(the CPython `strptime` two-digit-year pivot); a malformed label (missing
the `'@'` separator so that the date token is absent) yields a parse
failure, which the caller absorbs by processing the entry dateless. -/
theorem c4_amended (wd time : List Char) (m d y2 : Nat)
    (hwd1 : wd ≠ []) (hwd2 : ∀ c ∈ wd, c.isWhitespace = false ∧ c ≠ '@')
    (hm1 : 1 ≤ m) (hm2 : m ≤ 12) (hd1 : 1 ≤ d)
    (hd2 : d ≤ daysInMonth (pivotYear y2) m) (hy : y2 ≤ 99) :
    parseTileDate (mkTileLabel wd m d y2 time) = some ⟨pivotYear y2, m, d⟩
    ∧ pivotYear y2 = (if y2 ≤ 68 then 2000 + y2 else 1900 + y2)
    ∧ parseTileDate "Tue 11/25/25 1:00 PM" = none := by
  have hm99 : m ≤ 99 := by omega
  have hd99 : d ≤ 99 :=
    le_trans hd2 (le_trans (daysInMonth_le _ _) (by omega))
  have htokws : ∀ c ∈ renderDateTok m d y2, c.isWhitespace = false :=
    fun c hc => (renderDateTok_chars m d y2 hm99 hd99 hy c hc).1
  have hA : '@' ∉ wd ++ ' ' :: (renderDateTok m d y2 ++ [' ']) := by
    intro hc
    rw [List.mem_append] at hc
    rcases hc with hc | hc
    · exact (hwd2 _ hc).2 rfl
    · rw [List.mem_cons] at hc
      rcases hc with hc | hc
      · exact absurd hc (by decide)
      · rw [List.mem_append] at hc
        rcases hc with hc | hc
        · exact (renderDateTok_chars m d y2 hm99 hd99 hy _ hc).2 rfl
        · exact absurd hc (by decide)
  have hshape : (mkTileLabel wd m d y2 time).data
      = (wd ++ ' ' :: (renderDateTok m d y2 ++ [' '])) ++ '@' :: (' ' :: time) := by
    simp [mkTileLabel]
  have e1 : (splitOnChar '@' (mkTileLabel wd m d y2 time).data).headD []
      = wd ++ ' ' :: (renderDateTok m d y2 ++ [' ']) := by
    rw [hshape, splitOnChar_sep_append '@' _ _ hA]
    rfl
  have e2 : pyWords (pyStrip (wd ++ ' ' :: (renderDateTok m d y2 ++ [' '])))
      = [wd, renderDateTok m d y2] := by
    rw [pyWords_pyStrip]
    have hassoc : wd ++ ' ' :: (renderDateTok m d y2 ++ [' '])
        = (wd ++ ' ' :: renderDateTok m d y2) ++ [' '] := by simp
    rw [hassoc]
    unfold pyWords
    rw [wordsAux_ws_suffix [' '] (by intro c hc; simp at hc; subst hc; rfl)]
    exact pyWords_pair wd (renderDateTok m d y2) hwd1
      (fun c hc => (hwd2 c hc).1) (renderDateTok_ne_nil m d y2) htokws
  refine ⟨?_, rfl, by decide⟩
  unfold parseTileDate
  rw [e1, e2]
  simp only [List.getLast?]
  exact parseMDY_render m d y2 hm1 hm2 hd1 hd2 hy

/-- Witness for `c4_amended` at the concrete label `"Tue 03/15/25 @ 6:00 AM"`. -/
theorem c4_amended_witness :
    (("Tue".data : List Char) ≠ [] ∧ (∀ c ∈ "Tue".data, c.isWhitespace = false ∧ c ≠ '@')
      ∧ 1 ≤ 3 ∧ 3 ≤ 12 ∧ 1 ≤ 15 ∧ 15 ≤ daysInMonth (pivotYear 25) 3 ∧ 25 ≤ 99)
    ∧ (parseTileDate (mkTileLabel "Tue".data 3 15 25 "6:00 AM".data) = some ⟨pivotYear 25, 3, 15⟩
      ∧ pivotYear 25 = (if 25 ≤ 68 then 2000 + 25 else 1900 + 25)
      ∧ parseTileDate "Tue 11/25/25 1:00 PM" = none) :=
  ⟨⟨by decide, by decide, by decide, by decide, by decide, by decide, by decide⟩,
    c4_amended "Tue".data "6:00 AM".data 3 15 25 (by decide) (by decide) (by decide)
      (by decide) (by decide) (by decide) (by decide)⟩

/-! ### Step-level lemmas about the traversal loop -/

theorem processTile_classes (s : TraversalState) (t : Tile) (cd : Option PDate) :
    (∀ d s2, processTile s t cd = .next d s2 → s2.classes = s.classes ++ extractedRecords [d])
    ∧ (∀ d f, processTile s t cd = .halt d f →
        f.classes = s.classes ∧ recordOfDecision d = none) := by
  constructor <;> intro d x h <;>
    (unfold processTile at h; repeat' split at h) <;>
    (cases h <;> simp [extractedRecords, recordOfDecision])

theorem datedStep_classes (cfg : TraversalConfig) (s : TraversalState) (t : Tile) (d0 : PDate) :
    (∀ d s2, datedStep cfg s t d0 = .next d s2 → s2.classes = s.classes ++ extractedRecords [d])
    ∧ (∀ d f, datedStep cfg s t d0 = .halt d f →
        f.classes = s.classes ∧ recordOfDecision d = none) := by
  constructor <;> intro d x h <;> (unfold datedStep at h; repeat' split at h) <;>
    first
    | (cases h <;> simp [extractedRecords, recordOfDecision])
    | (have hpc := (processTile_classes _ t (some d0)).1 d x h; simpa using hpc)
    | (have hpc := (processTile_classes _ t (some d0)).2 d x h; simpa using hpc)

theorem traversalStep_classes (cfg : TraversalConfig) (catalog : List Tile) (s : TraversalState) :
    (∀ d s2, traversalStep cfg catalog s = .next d s2 →
      s2.classes = s.classes ++ extractedRecords [d])
    ∧ (∀ d f, traversalStep cfg catalog s = .halt d f →
        f.classes = s.classes ∧ recordOfDecision d = none) := by
  constructor <;> intro d x h <;> (unfold traversalStep tileStep at h; repeat' split at h) <;>
    first
    | (cases h <;> simp [extractedRecords, recordOfDecision])
    | (exact (processTile_classes s _ none).1 d x h)
    | (exact (processTile_classes s _ none).2 d x h)
    | (exact (datedStep_classes cfg s _ _).1 d x h)
    | (exact (datedStep_classes cfg s _ _).2 d x h)

theorem extractedRecords_cons (d : Decision) (ds : List Decision) :
    extractedRecords (d :: ds) = (recordOfDecision d).toList ++ extractedRecords ds := by
  unfold extractedRecords
  rw [List.filterMap_cons]
  cases hd : recordOfDecision d <;> simp

/-- Along any completed run, the final record list is the initial one plus
exactly the records announced by the `processed` decisions, in order:
nothing collected is ever dropped. -/
theorem runAux_classes (cfg : TraversalConfig) (catalog : List Tile) :
    ∀ fuel s ds dh f, runAux cfg catalog fuel s = (ds, some (dh, f)) →
      f.classes = s.classes ++ extractedRecords ds := by
  intro fuel
  induction fuel with
  | zero => intro s ds dh f h; simp [runAux] at h
  | succ n ih =>
    intro s ds dh f h
    unfold runAux at h
    cases hstep : traversalStep cfg catalog s with
    | halt d f2 =>
      rw [hstep] at h
      injection h with h1 h2
      injection h2 with h2
      injection h2 with h2a h2b
      subst h1 h2a h2b
      have := (traversalStep_classes cfg catalog s).2 d f2 hstep
      rw [this.1, extractedRecords_cons, this.2]
      simp [extractedRecords]
    | next d s2 =>
      rw [hstep] at h
      simp only at h
      injection h with h1 h2
      cases hr : runAux cfg catalog n s2 with
      | mk ds2 r2 =>
        rw [hr] at h1 h2
        simp only at h1 h2
        subst h1
        have hrec := ih s2 ds2 dh f (by rw [hr, h2])
        have hone := (traversalStep_classes cfg catalog s).1 d s2 hstep
        rw [hrec, hone, extractedRecords_cons]
        cases hd : recordOfDecision d <;>
          simp [extractedRecords, List.filterMap_cons, hd]

theorem processTile_inv_next (cfg : TraversalConfig) (catalog : List Tile)
    (s : TraversalState) (t : Tile) (cd : Option PDate)
    (hmem : t.id ∈ (catalog.take cfg.maxClasses).map Tile.id)
    (hInv : RunInv cfg catalog s) :
    ∀ d s2, processTile s t cd = .next d s2 → RunInv cfg catalog s2 := by
  obtain ⟨h1, h2, h3, h4⟩ := hInv
  intro d x h
  simp only [processTile] at h
  cases hout : t.outcome <;> rw [hout] at h
  · by_cases hc : s.processedIds.contains t.id
    · rw [if_pos hc] at h
      cases h
      exact ⟨h1, h2, h3, h4⟩
    · rw [if_neg hc] at h
      cases h
      refine ⟨by simp [h1], ?_, ?_, h4⟩
      · simp only [List.nodup_cons]
        exact ⟨fun hx => hc (List.elem_eq_true_of_mem hx), h2⟩
      · intro x hx
        rcases List.mem_cons.mp hx with hx | hx
        · subst hx; exact hmem
        · exact h3 x hx
  · by_cases h5 : 5 ≤ s.staleElementErrors + 1
    · rw [if_pos h5] at h; cases h
    · rw [if_neg h5] at h
      cases h
      refine ⟨h1, h2, h3, ?_⟩
      show s.staleElementErrors + 1 < 5
      omega
  · cases h
    exact ⟨h1, h2, h3, h4⟩

theorem processTile_inv_halt (cfg : TraversalConfig) (catalog : List Tile)
    (s : TraversalState) (t : Tile) (cd : Option PDate)
    (hInv : RunInv cfg catalog s) :
    ∀ d f, processTile s t cd = .halt d f →
      f.classes.length = f.processedIds.length ∧ f.processedIds.Nodup
      ∧ (∀ x ∈ f.processedIds, x ∈ (catalog.take cfg.maxClasses).map Tile.id)
      ∧ f.staleElementErrors ≤ 5
      ∧ (d = Decision.stopStaleAbort ↔ f.staleElementErrors = 5) := by
  obtain ⟨h1, h2, h3, h4⟩ := hInv
  intro d x h
  simp only [processTile] at h
  cases hout : t.outcome <;> rw [hout] at h
  · by_cases hc : s.processedIds.contains t.id
    · rw [if_pos hc] at h; cases h
    · rw [if_neg hc] at h; cases h
  · by_cases h5 : 5 ≤ s.staleElementErrors + 1
    · rw [if_pos h5] at h
      cases h
      refine ⟨h1, h2, h3, ?_, ?_⟩
      · show s.staleElementErrors + 1 ≤ 5
        omega
      · show Decision.stopStaleAbort = Decision.stopStaleAbort ↔ s.staleElementErrors + 1 = 5
        simp
        omega
    · rw [if_neg h5] at h; cases h
  · cases h

theorem datedStep_inv_next (cfg : TraversalConfig) (catalog : List Tile)
    (s : TraversalState) (t : Tile) (d0 : PDate)
    (hmem : t.id ∈ (catalog.take cfg.maxClasses).map Tile.id)
    (hInv : RunInv cfg catalog s) :
    ∀ d s2, datedStep cfg s t d0 = .next d s2 → RunInv cfg catalog s2 := by
  obtain ⟨h1, h2, h3, h4⟩ := hInv
  intro d x h
  unfold datedStep at h
  repeat' split at h
  all_goals first
    | (cases h <;> exact ⟨h1, h2, h3, h4⟩)
    | (refine processTile_inv_next cfg catalog _ t (some d0) hmem ?_ d x h
       exact ⟨h1, h2, h3, h4⟩)

theorem datedStep_inv_halt (cfg : TraversalConfig) (catalog : List Tile)
    (s : TraversalState) (t : Tile) (d0 : PDate)
    (hInv : RunInv cfg catalog s) :
    ∀ d f, datedStep cfg s t d0 = .halt d f →
      f.classes.length = f.processedIds.length ∧ f.processedIds.Nodup
      ∧ (∀ x ∈ f.processedIds, x ∈ (catalog.take cfg.maxClasses).map Tile.id)
      ∧ f.staleElementErrors ≤ 5
      ∧ (d = Decision.stopStaleAbort ↔ f.staleElementErrors = 5) := by
  obtain ⟨h1, h2, h3, h4⟩ := hInv
  intro d x h
  unfold datedStep at h
  repeat' split at h
  all_goals first
    | (cases h <;>
        exact ⟨h1, h2, h3, by (try dsimp only); omega,
          iff_of_false (by simp) (by (try dsimp only); omega)⟩)
    | (refine processTile_inv_halt cfg catalog _ t (some d0) ?_ d x h
       exact ⟨h1, h2, h3, h4⟩)

theorem traversalStep_inv (cfg : TraversalConfig) (catalog : List Tile)
    (s : TraversalState) (hInv : RunInv cfg catalog s) :
    (∀ d s2, traversalStep cfg catalog s = .next d s2 → RunInv cfg catalog s2)
    ∧ (∀ d f, traversalStep cfg catalog s = .halt d f →
        f.classes.length = f.processedIds.length ∧ f.processedIds.Nodup
        ∧ (∀ x ∈ f.processedIds, x ∈ (catalog.take cfg.maxClasses).map Tile.id)
        ∧ f.staleElementErrors ≤ 5
        ∧ (d = Decision.stopStaleAbort ↔ f.staleElementErrors = 5)) := by
  constructor <;> intro d x h <;> unfold traversalStep at h <;>
    by_cases hmax : cfg.maxClasses ≤ s.i
  · rw [if_pos hmax] at h; cases h
  · rw [if_neg hmax] at h
    cases hsome : catalog[s.i]? with
    | none => rw [hsome] at h; cases h
    | some t =>
      rw [hsome] at h
      dsimp only at h
      unfold tileStep at h
      have hti : (catalog.take cfg.maxClasses)[s.i]? = some t := by
        rw [List.getElem?_take_of_lt (by omega)]; exact hsome
      have hmem : t.id ∈ (catalog.take cfg.maxClasses).map Tile.id :=
        List.mem_map_of_mem Tile.id (List.getElem?_mem hti)
      cases hdate : t.date with
      | none => rw [hdate] at h; exact processTile_inv_next cfg catalog s t none hmem hInv d x h
      | some d0 => rw [hdate] at h; exact datedStep_inv_next cfg catalog s t d0 hmem hInv d x h
  · rw [if_pos hmax] at h
    cases h
    obtain ⟨h1, h2, h3, h4⟩ := hInv
    refine ⟨h1, h2, h3, by omega, ?_⟩
    constructor <;> intro habs <;> simp_all
  · rw [if_neg hmax] at h
    cases hsome : catalog[s.i]? with
    | none =>
      rw [hsome] at h
      cases h
      obtain ⟨h1, h2, h3, h4⟩ := hInv
      refine ⟨h1, h2, h3, by omega, ?_⟩
      constructor <;> intro habs <;> simp_all
    | some t =>
      rw [hsome] at h
      dsimp only at h
      unfold tileStep at h
      cases hdate : t.date with
      | none => rw [hdate] at h; exact processTile_inv_halt cfg catalog s t none hInv d x h
      | some d0 => rw [hdate] at h; exact datedStep_inv_halt cfg catalog s t d0 hInv d x h

/-- Along any completed run from an invariant-satisfying state, the final
state keeps the invariant's bounds, and the run ends with the stale-abort
decision exactly when the cumulative stale-failure count reached 5. -/
theorem runAux_inv (cfg : TraversalConfig) (catalog : List Tile) :
    ∀ fuel s ds dh f, RunInv cfg catalog s →
      runAux cfg catalog fuel s = (ds, some (dh, f)) →
      f.classes.length = f.processedIds.length ∧ f.processedIds.Nodup
      ∧ (∀ x ∈ f.processedIds, x ∈ (catalog.take cfg.maxClasses).map Tile.id)
      ∧ f.staleElementErrors ≤ 5
      ∧ (dh = Decision.stopStaleAbort ↔ f.staleElementErrors = 5) := by
  intro fuel
  induction fuel with
  | zero => intro s ds dh f _ h; simp [runAux] at h
  | succ n ih =>
    intro s ds dh f hInv h
    unfold runAux at h
    cases hstep : traversalStep cfg catalog s with
    | halt d f2 =>
      rw [hstep] at h
      injection h with h1 h2
      injection h2 with h2
      injection h2 with h2a h2b
      rw [← h2a, ← h2b]
      exact (traversalStep_inv cfg catalog s hInv).2 d f2 hstep
    | next d s2 =>
      rw [hstep] at h
      simp only at h
      injection h with h1 h2
      cases hr : runAux cfg catalog n s2 with
      | mk ds2 r2 =>
        rw [hr] at h2
        simp only at h2
        exact ih s2 ds2 dh f ((traversalStep_inv cfg catalog s hInv).1 d s2 hstep) (by rw [hr, h2])

/-! ### Open-ended (no date bounds) runs -/

theorem step_noBounds_mono (cfg : TraversalConfig) (catalog : List Tile) (s : TraversalState)
    (hs : cfg.startDate = none) (he : cfg.endDate = none) (hf : s.foundRangeStart = true) :
    (∀ d s2, traversalStep cfg catalog s = .next d s2 → s.i ≤ s2.i ∧ s2.foundRangeStart = true)
    ∧ (∀ d f, traversalStep cfg catalog s = .halt d f → s.i ≤ f.i ∧ f.foundRangeStart = true) := by
  constructor <;> intro d x h <;>
    (unfold traversalStep tileStep datedStep processTile at h
     simp only [hs, he, hf, beforeStartB, afterEndB, Bool.not_true, Bool.not_false,
       Bool.false_and, Bool.true_and, Bool.and_false, Bool.and_true, Bool.false_or,
       Bool.or_false, Bool.or_self, Bool.false_eq_true, if_false] at h
     repeat' split at h) <;>
    (cases h <;> (constructor <;> (try dsimp only) <;> first | omega | rfl | exact hf))

theorem c3_not_mem_take (catalog : List Tile) (hn : (catalog.map Tile.id).Nodup)
    (k : Nat) (t : Tile) (hk : catalog[k]? = some t) :
    t.id ∉ (catalog.take k).map Tile.id := by
  intro hmem
  rw [List.map_take] at hmem
  obtain ⟨j, hlen, hj⟩ := List.getElem_of_mem hmem
  have hjk : j < k := by
    have := List.length_take k (catalog.map Tile.id)
    omega
  have hjlen : j < (catalog.map Tile.id).length := by
    have := List.length_take k (catalog.map Tile.id)
    omega
  have hje : (catalog.map Tile.id)[j]? = some t.id := by
    rw [← List.getElem?_take_of_lt hjk, List.getElem?_eq_getElem hlen, hj]
  have hke : (catalog.map Tile.id)[k]? = some t.id := by
    rw [List.getElem?_map, hk]
    rfl
  have : j = k := List.getElem?_inj hjlen hn (by rw [hje, hke])
  omega

theorem c3_first_step (cfg : TraversalConfig) (catalog : List Tile) (skip0 : Nat)
    (t0 : Tile) (d0 : PDate)
    (hs : cfg.startDate = none) (he : cfg.endDate = none)
    (h0 : catalog[0]? = some t0) (h0d : t0.date = some d0) (hm : 0 < cfg.maxClasses) :
    traversalStep cfg catalog (initState skip0) = .next .enterBacktrack (c3State catalog skip0 0) := by
  unfold traversalStep
  rw [if_neg (show ¬(cfg.maxClasses ≤ (initState skip0).i) by dsimp only [initState]; omega)]
  rw [show (initState skip0).i = 0 from rfl, h0]
  show tileStep cfg (initState skip0) t0 = _
  unfold tileStep
  rw [h0d]
  show datedStep cfg (initState skip0) t0 d0 = _
  unfold datedStep
  simp only [hs, he, beforeStartB, afterEndB, initState, Bool.not_false, Bool.and_false,
    Bool.false_and, Bool.and_true, Bool.true_and, Bool.not_true, Bool.or_self,
    decide_eq_true_eq, if_false, if_true]
  simp [c3State]

theorem processTile_ok_new (s : TraversalState) (t : Tile) (cd : Option PDate)
    (hout : t.outcome = .ok) (hc : s.processedIds.contains t.id = false) :
    processTile s t cd = .next (.processed (mkRecord t cd))
      { s with processedIds := t.id :: s.processedIds
               classes := s.classes ++ [mkRecord t cd]
               i := s.i + 1 } := by
  unfold processTile
  rw [hout]
  dsimp only
  rw [hc]
  simp only [Bool.false_eq_true, if_false]

theorem c3_step_proc (cfg : TraversalConfig) (catalog : List Tile) (skip0 : Nat)
    (hs : cfg.startDate = none) (he : cfg.endDate = none)
    (hn : (catalog.map Tile.id).Nodup) (hok : ∀ t ∈ catalog, t.outcome = .ok)
    (k : Nat) (t : Tile) (hkmax : k < cfg.maxClasses) (hkt : catalog[k]? = some t) :
    traversalStep cfg catalog (c3State catalog skip0 k)
      = .next (.processed (mkRecord t t.date)) (c3State catalog skip0 (k + 1)) := by
  have hnot : t.id ∉ (c3State catalog skip0 k).processedIds := by
    show t.id ∉ ((catalog.take k).map Tile.id).reverse
    rw [List.mem_reverse]
    exact c3_not_mem_take catalog hn k t hkt
  have hcontains : (c3State catalog skip0 k).processedIds.contains t.id = false := by
    cases hb : (c3State catalog skip0 k).processedIds.contains t.id
    · rfl
    · exact absurd (List.mem_of_elem_eq_true hb) hnot
  have houtk : t.outcome = .ok := hok t (List.getElem?_mem hkt)
  unfold traversalStep
  rw [if_neg (show ¬(cfg.maxClasses ≤ (c3State catalog skip0 k).i) by
    dsimp only [c3State]; omega)]
  rw [show (c3State catalog skip0 k).i = k from rfl, hkt]
  show tileStep cfg (c3State catalog skip0 k) t = _
  unfold tileStep
  cases hdate : t.date with
  | some d0 =>
    unfold datedStep
    simp only [hs, he, beforeStartB, afterEndB,
      show (c3State catalog skip0 k).foundRangeStart = true from rfl,
      Bool.not_true, Bool.not_false, Bool.false_and, Bool.true_and, Bool.and_false,
      Bool.and_true, Bool.false_or, Bool.or_false, Bool.or_self, Bool.false_eq_true, if_false]
    show processTile (c3State catalog skip0 k) t (some d0) = _
    rw [processTile_ok_new _ t (some d0) houtk hcontains]
    simp [c3State, StepResult.next.injEq, TraversalState.mk.injEq, List.take_succ, hkt, hdate]
  | none =>
    rw [processTile_ok_new _ t none houtk hcontains]
    simp [c3State, StepResult.next.injEq, TraversalState.mk.injEq, List.take_succ, hkt, hdate]

theorem c3_halt_step (cfg : TraversalConfig) (catalog : List Tile) (skip0 k : Nat)
    (hk : k = min cfg.maxClasses catalog.length) :
    ∃ dh, traversalStep cfg catalog (c3State catalog skip0 k)
      = .halt dh (c3State catalog skip0 k) := by
  rcases le_or_lt cfg.maxClasses catalog.length with hle | hlt
  · refine ⟨.stopMaxReached, ?_⟩
    unfold traversalStep
    rw [if_pos (show cfg.maxClasses ≤ (c3State catalog skip0 k).i by
      dsimp only [c3State]; omega)]
  · refine ⟨.stopEndOfCatalog, ?_⟩
    unfold traversalStep
    rw [if_neg (show ¬(cfg.maxClasses ≤ (c3State catalog skip0 k).i) by
      dsimp only [c3State]; omega)]
    rw [show (c3State catalog skip0 k).i = k from rfl]
    rw [List.getElem?_eq_none (by omega)]

theorem c3_run_aux (cfg : TraversalConfig) (catalog : List Tile) (skip0 : Nat)
    (hs : cfg.startDate = none) (he : cfg.endDate = none)
    (hn : (catalog.map Tile.id).Nodup) (hok : ∀ t ∈ catalog, t.outcome = .ok) :
    ∀ j k, k + j = min cfg.maxClasses catalog.length →
      ∃ ds dh, runAux cfg catalog (j + 1) (c3State catalog skip0 k)
        = (ds, some (dh, c3State catalog skip0 (min cfg.maxClasses catalog.length))) := by
  intro j
  induction j with
  | zero =>
    intro k hk
    obtain ⟨dh, hstep⟩ := c3_halt_step cfg catalog skip0 k (by omega)
    refine ⟨[dh], dh, ?_⟩
    unfold runAux
    rw [hstep]
    rw [show k = min cfg.maxClasses catalog.length from by omega]
  | succ n ih =>
    intro k hk
    have hkmax : k < cfg.maxClasses := by omega
    have hklen : k < catalog.length := by omega
    obtain ⟨t, hkt⟩ : ∃ t, catalog[k]? = some t := ⟨_, List.getElem?_eq_getElem hklen⟩
    have hstep := c3_step_proc cfg catalog skip0 hs he hn hok k t hkmax hkt
    obtain ⟨ds, dh, hrec⟩ := ih (k + 1) (by omega)
    refine ⟨.processed (mkRecord t t.date) :: ds, dh, ?_⟩
    show runAux cfg catalog (n + 1 + 1) (c3State catalog skip0 k) = _
    unfold runAux
    rw [hstep]
    dsimp only
    rw [hrec]

theorem stepStates_succ (cfg : TraversalConfig) (catalog : List Tile) (s : TraversalState)
    (n : Nat) :
    stepStates cfg catalog s (n + 1)
      = match traversalStep cfg catalog (stepStates cfg catalog s n) with
        | .halt _ f => f
        | .next _ s2 => s2 := rfl

theorem c3_found_after (cfg : TraversalConfig) (catalog : List Tile) (skip0 : Nat)
    (t0 : Tile) (d0 : PDate)
    (hs : cfg.startDate = none) (he : cfg.endDate = none)
    (h0 : catalog[0]? = some t0) (h0d : t0.date = some d0) (hm : 0 < cfg.maxClasses) :
    ∀ n, (stepStates cfg catalog (initState skip0) (n + 1)).foundRangeStart = true := by
  intro n
  induction n with
  | zero =>
    rw [stepStates_succ]
    rw [show stepStates cfg catalog (initState skip0) 0 = initState skip0 from rfl]
    rw [c3_first_step cfg catalog skip0 t0 d0 hs he h0 h0d hm]
    rfl
  | succ n ih =>
    rw [stepStates_succ]
    cases hstep : traversalStep cfg catalog (stepStates cfg catalog (initState skip0) (n + 1)) with
    | halt d f => exact ((step_noBounds_mono cfg catalog _ hs he ih).2 d f hstep).2
    | next d s2 => exact ((step_noBounds_mono cfg catalog _ hs he ih).1 d s2 hstep).2

theorem c3_mono (cfg : TraversalConfig) (catalog : List Tile) (skip0 : Nat)
    (t0 : Tile) (d0 : PDate)
    (hs : cfg.startDate = none) (he : cfg.endDate = none)
    (h0 : catalog[0]? = some t0) (h0d : t0.date = some d0) (hm : 0 < cfg.maxClasses) :
    ∀ n, (stepStates cfg catalog (initState skip0) n).i
      ≤ (stepStates cfg catalog (initState skip0) (n + 1)).i := by
  intro n
  cases n with
  | zero =>
    rw [stepStates_succ]
    rw [show stepStates cfg catalog (initState skip0) 0 = initState skip0 from rfl]
    rw [c3_first_step cfg catalog skip0 t0 d0 hs he h0 h0d hm]
    show (initState skip0).i ≤ (c3State catalog skip0 0).i
    exact Nat.le_refl 0
  | succ n =>
    have hf := c3_found_after cfg catalog skip0 t0 d0 hs he h0 h0d hm n
    rw [stepStates_succ cfg catalog (initState skip0) (n + 1)]
    cases hstep : traversalStep cfg catalog (stepStates cfg catalog (initState skip0) (n + 1)) with
    | halt d f => exact ((step_noBounds_mono cfg catalog _ hs he hf).2 d f hstep).1
    | next d s2 => exact ((step_noBounds_mono cfg catalog _ hs he hf).1 d s2 hstep).1

/-- C3 counterexample: an open-ended run (no startDate, no endDate) whose
first entry has an unparsable date.  The second (dated) entry triggers the
enter-the-range backup, moving the offset backwards from 1 to 0, and the
run then revisits the already-processed entry forever: a BACKTRACK decision
is emitted and the run does not reach end-of-catalog. -/
theorem c3_counterexample :
    c3Cfg.startDate = none ∧ c3Cfg.endDate = none
    ∧ (stepStates c3Cfg c3Cat (initState 1) 1).i = 1
    ∧ (stepStates c3Cfg c3Cat (initState 1) 2).i = 0
    ∧ Decision.enterBacktrack ∈ (runAux c3Cfg c3Cat 50 (initState 1)).1
    ∧ (runAux c3Cfg c3Cat 50 (initState 1)).2 = none := by
  decide

/-- C3 (amended): in an open-ended run (neither bound configured) whose
first observed entry has a parsable date, the window tracker enters the
in-range mode on that very first entry (the 20-position backup happens at
offset 0, where `max(0, 0-20) = 0`, so the offset never moves backwards at
any step of the run), and — provided entry identifiers are pairwise
distinct and no extraction failure occurs — the run processes the entries
in catalog order until `max_classes` is reached or the catalog ends,
returning exactly the records of the first `min(max_classes, |catalog|)`
entries. -/
theorem c3_amended (cfg : TraversalConfig) (catalog : List Tile) (skip0 : Nat)
    (t0 : Tile) (d0 : PDate)
    (hs : cfg.startDate = none) (he : cfg.endDate = none)
    (h0 : catalog[0]? = some t0) (h0d : t0.date = some d0)
    (hn : (catalog.map Tile.id).Nodup) (hok : ∀ t ∈ catalog, t.outcome = .ok)
    (hm : 0 < cfg.maxClasses) :
    (∀ n, (stepStates cfg catalog (initState skip0) n).i
        ≤ (stepStates cfg catalog (initState skip0) (n + 1)).i)
    ∧ ∃ ds dh f,
        runAux cfg catalog (min cfg.maxClasses catalog.length + 2) (initState skip0)
          = (ds, some (dh, f))
        ∧ f.classes = (catalog.take cfg.maxClasses).map (fun t => mkRecord t t.date) := by
  constructor
  · exact c3_mono cfg catalog skip0 t0 d0 hs he h0 h0d hm
  · obtain ⟨ds, dh, hrec⟩ := c3_run_aux cfg catalog skip0 hs he hn hok
      (min cfg.maxClasses catalog.length) 0 (by omega)
    refine ⟨.enterBacktrack :: ds, dh,
      c3State catalog skip0 (min cfg.maxClasses catalog.length), ?_, ?_⟩
    · show runAux cfg catalog (min cfg.maxClasses catalog.length + 1 + 1) (initState skip0) = _
      unfold runAux
      rw [c3_first_step cfg catalog skip0 t0 d0 hs he h0 h0d hm]
      dsimp only
      rw [hrec]
    · show (catalog.take (min cfg.maxClasses catalog.length)).map (fun t => mkRecord t t.date) = _
      rw [show catalog.take (min cfg.maxClasses catalog.length) = catalog.take cfg.maxClasses from
        List.take_eq_take.mpr (by omega)]

/-- Witness for `c3_amended` at a concrete three-entry catalog with
`max_classes = 2`. -/
theorem c3_amended_witness :
    (c3wCfg.startDate = none ∧ c3wCfg.endDate = none
      ∧ c3wCat[0]? = some (mkTile 0 (some ⟨2025, 5, 1⟩))
      ∧ (mkTile 0 (some ⟨2025, 5, 1⟩)).date = some ⟨2025, 5, 1⟩
      ∧ (c3wCat.map Tile.id).Nodup ∧ (∀ t ∈ c3wCat, t.outcome = .ok)
      ∧ 0 < c3wCfg.maxClasses)
    ∧ ((∀ n, (stepStates c3wCfg c3wCat (initState 1) n).i
          ≤ (stepStates c3wCfg c3wCat (initState 1) (n + 1)).i)
      ∧ ∃ ds dh f,
          runAux c3wCfg c3wCat (min c3wCfg.maxClasses c3wCat.length + 2) (initState 1)
            = (ds, some (dh, f))
          ∧ f.classes = (c3wCat.take c3wCfg.maxClasses).map (fun t => mkRecord t t.date)) :=
  ⟨⟨rfl, rfl, by decide, by decide, by decide, by decide, by decide⟩,
    c3_amended c3wCfg c3wCat 1 (mkTile 0 (some ⟨2025, 5, 1⟩)) ⟨2025, 5, 1⟩
      rfl rfl (by decide) (by decide) (by decide) (by decide) (by decide)⟩

/-- C2 counterexample: with `max_classes = 10` over a window holding 12
in-range entries, the single fast-forward skip past the first
out-of-window tile advances the offset to 21, which already exhausts the
`while i < max_classes` guard: the run extracts 0 records, not 10 — skipped
positions do consume the `max_classes` budget. -/
theorem c2_counterexample :
    c2Cfg.maxClasses = 10
    ∧ inRangeTileCount c2Cfg c2Cat = 12
    ∧ (runAux c2Cfg c2Cat 10 (initState 1)).1.map decisionKindCode = [0, 9]
    ∧ (runAux c2Cfg c2Cat 10 (initState 1)).2.map (fun p => (p.2.classes.length, p.2.i))
      = some (0, 21) := by
  decide

/-- C2 (amended): `max_classes` caps the loop's position index, not the
count of extracted records: the number of records any completed run
extracts never exceeds `max_classes` (each record comes from a distinct
position below `max_classes`), but positions skipped past during
fast-forward consume the same budget, so a window holding at least
`max_classes` in-range entries can yield fewer — even zero — records. -/
theorem c2_amended (cfg : TraversalConfig) (catalog : List Tile) (skip0 fuel : Nat)
    (ds : List Decision) (dh : Decision) (f : TraversalState)
    (h : runAux cfg catalog fuel (initState skip0) = (ds, some (dh, f))) :
    f.classes.length ≤ cfg.maxClasses := by
  have hInv : RunInv cfg catalog (initState skip0) := by
    refine ⟨rfl, List.nodup_nil, ?_, by show (0 : Nat) < 5; omega⟩
    intro x hx
    exact absurd hx (List.not_mem_nil x)
  obtain ⟨e1, e2, e3, _, _⟩ := runAux_inv cfg catalog fuel (initState skip0) ds dh f hInv h
  have hsub : f.processedIds.Subperm ((catalog.take cfg.maxClasses).map Tile.id) :=
    e2.subperm (fun x hx => e3 x hx)
  calc f.classes.length = f.processedIds.length := e1
    _ ≤ ((catalog.take cfg.maxClasses).map Tile.id).length := hsub.length_le
    _ = (catalog.take cfg.maxClasses).length := by rw [List.length_map]
    _ ≤ cfg.maxClasses := by rw [List.length_take]; omega

/-- Witness for `c2_amended` on a trivial completed run. -/
theorem c2_amended_witness :
    runAux ⟨0, none, none, false⟩ [] 1 (initState 1)
      = ([Decision.stopMaxReached], some (Decision.stopMaxReached, initState 1))
    ∧ (initState 1).classes.length ≤ (⟨0, none, none, false⟩ : TraversalConfig).maxClasses :=
  ⟨by decide, c2_amended ⟨0, none, none, false⟩ [] 1 1 [Decision.stopMaxReached]
    Decision.stopMaxReached (initState 1) (by decide)⟩

/-- C5: the Window Tracker trace for the descending scenario.  The decision
codes are 0 = fast-forward skip, 2 = enter-range backtrack, 5 = process,
3 = counted consecutive skip, 12 = threshold stop (the source increments
`consecutive_skips` to 10 and breaks on that same observation, lines
466-469).  Exactly one skip for 2025-06-01, exactly one BACKTRACK — of
exactly 20 positions, offset 64 to 44, on the BEFORE-to-INSIDE transition
at 2025-03-15 and never again — one PROCESS for 2025-03-01 with the
consecutive counter reset to 0, and ten counter increments for the
2025-02-20 observations with exactly one STOP, the counter standing at the
threshold 10. -/
theorem c5_trace :
    (runAux c5Cfg c5Cat 30 (initState 1)).1.map decisionKindCode
      = [0, 2, 5, 3, 3, 3, 3, 3, 3, 3, 3, 3, 12]
    ∧ (runAux c5Cfg c5Cat 30 (initState 1)).1.countP isFFSkipD = 1
    ∧ (runAux c5Cfg c5Cat 30 (initState 1)).1.countP isBacktrackD = 1
    ∧ (runAux c5Cfg c5Cat 30 (initState 1)).1.countP isProcessedD = 1
    ∧ (runAux c5Cfg c5Cat 30 (initState 1)).1.countP isSkipIncrementD = 10
    ∧ (runAux c5Cfg c5Cat 30 (initState 1)).1.countP isStopD = 1
    ∧ (runAux c5Cfg c5Cat 30 (initState 1)).2.map
        (fun p => (decisionKindCode p.1, p.2.consecutiveSkips)) = some (12, 10)
    ∧ (stepStates c5Cfg c5Cat (initState 1) 1).i = 64
    ∧ (stepStates c5Cfg c5Cat (initState 1) 2).i = 44
    ∧ (stepStates c5Cfg c5Cat (initState 1) 3).consecutiveSkips = 0 := by
  decide

/-- C6: the traversal loop does not terminate on every finite catalog.  In
a newest-first run over the window 2025-03-01..2025-03-31 whose offset-0
tile is dated before the window, the overshoot backup `i = max(0, i - 20)`
at offset 0 reproduces the state unchanged, so the loop revisits offset 0
forever: no fuel suffices for the run to leave the loop. -/
theorem c6_nontermination :
    traversalStep c6Cfg c6Cat (initState 1) = .next .overshootBacktrack (initState 1)
    ∧ ∀ fuel, (runAux c6Cfg c6Cat fuel (initState 1)).2 = none := by
  have hstep : traversalStep c6Cfg c6Cat (initState 1)
      = .next .overshootBacktrack (initState 1) := by decide
  refine ⟨hstep, ?_⟩
  intro fuel
  induction fuel with
  | zero => rfl
  | succ n ih =>
    show (runAux c6Cfg c6Cat (n + 1) (initState 1)).2 = none
    unfold runAux
    rw [hstep]
    exact ih

/-- C1 counterexample: a two-entry run of `main`.  Both records are
extracted before any is persisted — the event trace is
extract, extract, persist, persist — so persistence is not immediate after
each extraction: an interruption between the extractions and the
persistence phase loses both records, not at most one in-flight record. -/
theorem c1_counterexample :
    mainEvents c1Cfg c1Cat 1 10
      = some [RunEvent.extracted (mkRecord (mkTile 0 none) none),
              RunEvent.extracted (mkRecord (mkTile 1 none) none),
              RunEvent.persisted (mkRecord (mkTile 0 none) none),
              RunEvent.persisted (mkRecord (mkTile 1 none) none)]
    ∧ ¬ ImmediatePersist
        [RunEvent.extracted (mkRecord (mkTile 0 none) none),
         RunEvent.extracted (mkRecord (mkTile 1 none) none),
         RunEvent.persisted (mkRecord (mkTile 0 none) none),
         RunEvent.persisted (mkRecord (mkTile 1 none) none)] := by
  constructor
  · decide
  · intro h
    have := h 0 (mkRecord (mkTile 0 none) none) (by decide)
    exact absurd this (by decide)

/-- C1 (amended): persistence is batched, not per record:
`extract_powerzone_classes` only appends each record to its return list
(line 555), and `main` runs `save_class_to_db` over that list after the
extraction loop has fully returned (lines 671-678).  Every run's event
trace is all extraction events followed by all persistence events of the
same record sequence, so an interruption during extraction loses every
extracted-but-unsaved record, up to the whole run. -/
theorem c1_amended (cfg : TraversalConfig) (catalog : List Tile) (skip0 fuel : Nat)
    (ev : List RunEvent) (h : mainEvents cfg catalog skip0 fuel = some ev) :
    ∃ rs : List ClassRecord, ev = rs.map RunEvent.extracted ++ rs.map RunEvent.persisted := by
  unfold mainEvents at h
  cases hr : runAux cfg catalog fuel (initState skip0) with
  | mk ds r =>
    rw [hr] at h
    cases r with
    | none => simp at h
    | some p =>
      obtain ⟨dh, f⟩ := p
      simp only at h
      injection h with h
      have hcl := runAux_classes cfg catalog fuel (initState skip0) ds dh f hr
      refine ⟨extractedRecords ds, ?_⟩
      rw [← h, hcl]
      simp [initState]

/-- Witness for `c1_amended` on a trivial completed run. -/
theorem c1_amended_witness :
    ∃ rs : List ClassRecord, ([] : List RunEvent) = rs.map RunEvent.extracted ++ rs.map RunEvent.persisted :=
  c1_amended ⟨0, none, none, false⟩ [] 1 1 [] (by decide)

/-- C7 counterexample: a run whose stale failures strictly alternate with
successful extractions — no two stale failures are consecutive, and each
failure is followed by a successful extraction — still aborts with
`stopStaleAbort` at the fifth cumulative stale failure (final counter 5),
returning the 4 collected records: the counter is never reset by success. -/
theorem c7_counterexample :
    hasAdjacentStale (runAux c7Cfg c7Cat 20 (initState 1)).1 = false
    ∧ (runAux c7Cfg c7Cat 20 (initState 1)).1.map decisionKindCode
      = [7, 5, 7, 5, 7, 5, 7, 5, 13]
    ∧ (runAux c7Cfg c7Cat 20 (initState 1)).2.map
        (fun p => (decisionKindCode p.1, p.2.classes.length, p.2.staleElementErrors))
      = some (13, 4, 5) := by
  decide

/-- C7 (amended): the stale-reference counter is cumulative over the run —
a successful extraction never resets it (the source initialises
`stale_element_errors` once, line 329, and only ever increments it, line
580).  A completed run ends in the stale abort exactly when the cumulative
count reached the threshold 5, and the abort preserves every collected
record: the returned list is exactly the records of the run's processed
decisions. -/
theorem c7_amended (cfg : TraversalConfig) (catalog : List Tile) (skip0 fuel : Nat)
    (ds : List Decision) (dh : Decision) (f : TraversalState)
    (h : runAux cfg catalog fuel (initState skip0) = (ds, some (dh, f))) :
    (dh = Decision.stopStaleAbort ↔ f.staleElementErrors = 5)
    ∧ f.classes = extractedRecords ds := by
  have hInv : RunInv cfg catalog (initState skip0) := by
    refine ⟨rfl, List.nodup_nil, ?_, by show (0 : Nat) < 5; omega⟩
    intro x hx
    exact absurd hx (List.not_mem_nil x)
  obtain ⟨_, _, _, _, hiff⟩ := runAux_inv cfg catalog fuel (initState skip0) ds dh f hInv h
  refine ⟨hiff, ?_⟩
  have hcl := runAux_classes cfg catalog fuel (initState skip0) ds dh f h
  simpa [initState] using hcl

/-- Witness for `c7_amended` on a trivial completed run. -/
theorem c7_amended_witness :
    (Decision.stopMaxReached = Decision.stopStaleAbort ↔ (initState 1).staleElementErrors = 5)
    ∧ (initState 1).classes = extractedRecords [Decision.stopMaxReached] :=
  c7_amended ⟨0, none, none, false⟩ [] 1 1 [Decision.stopMaxReached]
    Decision.stopMaxReached (initState 1) (by decide)
